import Mathlib

/-!
Verification of the clevergo HTTP router's dispatch layer (src/router.go).

The dispatcher (`Router.serveHTTP`, `Router.allowed`, `Router.handle`,
`Router.lookup`, the params-buffer reset) is embedded from src/router.go.
The path trie itself (node.getValue, node.addRoute,
node.findCaseInsensitivePath, CleanPath, Route/newRoute, countParams) is
code of the repository that is not part of src/; those definitions are
modelled from the specification and are marked as such in their doc
comments. Paths and methods are modelled as strings of characters
(the Go code works on bytes; the two agree on ASCII data).
-/

namespace Clevergo

/-- One URL parameter, a key/value pair (src/router.go, `Param`). -/
structure Param where
  key : String
  value : String
deriving DecidableEq, Repr

/-- An ordered list of URL parameters (src/router.go, `Params`). -/
abbrev Params := List Param

/-- Modelled from the spec: `Route` lives in route.go, outside src/. The
dispatcher reads only the registered pattern, the handler (modelled by a
numeric identity: handlers are opaque to the matching engine) and the
optional route name. -/
structure Route where
  pattern : String
  handler : Nat
  name : String := ""
deriving DecidableEq, Repr

/-- Split a character list at every slash; the separators are dropped and
empty fragments are kept, so the list of segments round-trips with
`joinSlash`. -/
def splitSlashAux : List Char → List Char → List (List Char)
  | [], cur => [cur.reverse]
  | c :: cs, cur =>
      if c = '/' then cur.reverse :: splitSlashAux cs []
      else splitSlashAux cs (c :: cur)

/-- The slash-separated segments of a path, as strings. -/
def segsOf (s : String) : List String :=
  (splitSlashAux s.data []).map (fun cs => String.mk cs)

/-- Rejoin segments with slashes (left inverse of `segsOf`). -/
def joinSlash : List String → String
  | [] => ""
  | [s] => s
  | s :: rest => s ++ "/" ++ joinSlash rest

/-- Join strings with a comma and a space, as Go's
strings.Join(allowed, ", ") does. -/
def joinCommaSpace : List String → String
  | [] => ""
  | [s] => s
  | s :: rest => s ++ ", " ++ joinCommaSpace rest

/-- ASCII lower-casing of one character. -/
def lowerChar (c : Char) : Char :=
  if 'A' ≤ c ∧ c ≤ 'Z' then Char.ofNat (c.toNat + 32) else c

/-- ASCII lower-casing of a string. -/
def lowerStr (s : String) : String :=
  String.mk (s.data.map lowerChar)

/-- The name of a wildcard segment: the text after the leading ':' or '*'. -/
def segName (s : String) : String :=
  String.mk s.data.tail

/-- Whether a pattern segment is a wildcard (single-segment parameter or
catch-all). -/
def isWildSeg (s : String) : Bool :=
  match s.data.head? with
  | some ':' => true
  | some '*' => true
  | _ => false

/-- Modelled from the spec: the Matcher's walk over one registered pattern
(node.getValue's per-pattern semantics; tree.go is not part of src/).
A static segment must be byte-equal to the path segment, a `:name` segment
captures exactly one segment, and a final `*name` segment captures the
whole remainder of the path including its leading slash. Captured
parameters are produced in left-to-right pattern order. -/
def matchSegs : List String → List String → Option (List Param)
  | [], [] => some []
  | [], _ :: _ => none
  | p :: ps, qs =>
      match isWildSeg p, p.data.head? with
      | true, some '*' =>
          match qs with
          | [] => none
          | q :: qs' =>
              if ps.isEmpty then some [⟨segName p, joinSlash ("" :: q :: qs')⟩]
              else none
      | true, _ =>
          match qs with
          | [] => none
          | q :: qs' => (matchSegs ps qs').map (fun caps => ⟨segName p, q⟩ :: caps)
      | false, _ =>
          match qs with
          | [] => none
          | q :: qs' => if p = q then matchSegs ps qs' else none

/-- Modelled from the spec: a method's path trie, reduced to the list of
routes registered in it (tree.go's node structure is not part of src/; the
compressed-trie layout is a performance device, the matching relation is
what the dispatcher observes). -/
structure Node where
  routes : List Route := []
deriving DecidableEq, Repr

/-- Modelled from the spec: registration attaches the route to the method's
trie (node.addRoute; conflict detection between patterns happens inside the
trie code, outside src/, and is not modelled). -/
def Node.addRoute (n : Node) (route : Route) : Node :=
  { routes := n.routes ++ [route] }

/-- The first registered route whose pattern matches the path, with its
captured parameters. -/
def findMatch : List Route → String → Option (Route × List Param)
  | [], _ => none
  | rt :: rest, path =>
      match matchSegs (segsOf rt.pattern) (segsOf path) with
      | some caps => some (rt, caps)
      | none => findMatch rest path

/-- The slash-toggled path: the trailing slash is removed when the path is
longer than one character and ends in '/', otherwise a slash is appended
(src/router.go, ServeHTTP lines 402-406 inline this computation). -/
def toggleSlash (path : String) : String :=
  if 1 < path.data.length ∧ path.data.getLast? = some '/' then
    String.mk path.data.dropLast
  else path ++ "/"

/-- Modelled from the spec: node.getValue (tree.go, not part of src/).
On a match it yields the route and its parameters — the parameter list is
materialised lazily, so a match that captured nothing reports no parameter
list at all. On a miss it yields the trailing-slash-redirect hint: whether
the slash-toggled path would match. -/
def Node.getValue (n : Node) (path : String) : Option Route × Option Params × Bool :=
  match findMatch n.routes path with
  | some (rt, caps) => (some rt, if caps.isEmpty then none else some caps, false)
  | none => (none, none, (findMatch n.routes (toggleSlash path)).isSome)

/-- Modelled from the spec: the CaseFolder's walk over one pattern.
Static segments are compared case-insensitively and emitted with the
registered casing; wildcard values are copied verbatim. -/
def ciMatchSegs : List String → List String → Option (List String)
  | [], [] => some []
  | [], _ :: _ => none
  | p :: ps, qs =>
      match isWildSeg p, p.data.head? with
      | true, some '*' =>
          match qs with
          | [] => none
          | q :: qs' => if ps.isEmpty then some (q :: qs') else none
      | true, _ =>
          match qs with
          | [] => none
          | q :: qs' => (ciMatchSegs ps qs').map (fun t => q :: t)
      | false, _ =>
          match qs with
          | [] => none
          | q :: qs' =>
              if lowerStr p = lowerStr q then (ciMatchSegs ps qs').map (fun t => p :: t)
              else none

/-- The corrected path of the first registered route that matches the path
case-insensitively. -/
def ciFind : List Route → String → Option String
  | [], _ => none
  | rt :: rest, path =>
      match ciMatchSegs (segsOf rt.pattern) (segsOf path) with
      | some segs => some (joinSlash segs)
      | none => ciFind rest path

/-- Modelled from the spec: node.findCaseInsensitivePath (tree.go, not part
of src/). A case-insensitive lookup of the path; when `fixTrailingSlash` is
set, one trailing-slash toggle is tried as a last resort. -/
def Node.findCaseInsensitivePath (n : Node) (path : String) (fixTrailingSlash : Bool) :
    String × Bool :=
  match ciFind n.routes path with
  | some fixed => (fixed, true)
  | none =>
      if fixTrailingSlash then
        match ciFind n.routes (toggleSlash path) with
        | some fixed => (fixed, true)
        | none => ("", false)
      else ("", false)

/-- Modelled from the spec: the PathNormalizer (CleanPath, path.go, not part
of src/): collapses repeated slashes, resolves `.` and `..` segments
lexically, always yields a path beginning with '/', and keeps a meaningful
trailing separator. -/
def CleanPath (p : String) : String :=
  if p = "" then "/"
  else
    let segs := (segsOf p).filter (fun s => s ≠ "" ∧ s ≠ ".")
    let resolved := segs.foldl (fun acc s => if s = ".." then acc.dropLast else acc ++ [s]) []
    let lastSeg := (segsOf p).getLast?
    let trailing := lastSeg = some "" ∨ lastSeg = some "."
    if resolved.isEmpty then "/"
    else "/" ++ joinSlash resolved ++ (if trailing then "/" else "")

/-- Modelled from the spec: countParams (tree.go, not part of src/): the
number of wildcard markers in a pattern, used to size the parameter pool. -/
def countParams (path : String) : Nat :=
  (path.data.filter (fun c => c = ':' ∨ c = '*')).length

/-- The dispatcher's state (src/router.go, `Router`). The `sync.Pool` of
parameter buffers is modelled separately (`ParamsBuf`); the configurable
handlers (GlobalOPTIONS, NotFound, MethodNotAllowed) are modelled by
whether a custom handler is set. -/
structure Router where
  trees : List (String × Node) := []
  routes : List (String × Route) := []
  maxParams : Nat := 0
  saveMatchedRoute : Bool := false
  redirectTrailingSlash : Bool := false
  redirectFixedPath : Bool := false
  handleMethodNotAllowed : Bool := false
  handleOPTIONS : Bool := false
  globalOPTIONS : Bool := false
  globalAllowed : String := ""
  notFound : Bool := false
  methodNotAllowed : Bool := false
deriving DecidableEq, Repr

/-- src/router.go, NewRouter: path auto-correction, trailing-slash
redirection, 405 handling and automatic OPTIONS replies are on by
default. -/
def NewRouter : Router :=
  { redirectTrailingSlash := true
    redirectFixedPath := true
    handleMethodNotAllowed := true
    handleOPTIONS := true }

/-- Look a method's trie up in `r.trees` (the Go map access
`r.trees[method]`). -/
def findTree : List (String × Node) → String → Option Node
  | [], _ => none
  | t :: rest, method => if t.1 = method then some t.2 else findTree rest method

/-- Replace a method's trie in `r.trees` (the Go node is mutated in place
through the map's pointer). -/
def updateTree : List (String × Node) → String → Node → List (String × Node)
  | [], _, _ => []
  | t :: rest, method, n =>
      if t.1 = method then (t.1, n) :: rest else t :: updateTree rest method n

/-- Look a named route up in `r.routes`. -/
def findRoute : List (String × Route) → String → Option Route
  | [], _ => none
  | t :: rest, name => if t.1 = name then some t.2 else findRoute rest name

/-- Lexicographic comparison of character lists, as Go compares strings
byte by byte (the two agree on ASCII method names). -/
def charListLt : List Char → List Char → Bool
  | [], [] => false
  | [], _ :: _ => true
  | _ :: _, [] => false
  | a :: as, b :: bs =>
      if a < b then true
      else if b < a then false
      else charListLt as bs

/-- Go's `s1 < s2` on strings. -/
def strLt (a b : String) : Bool :=
  charListLt a.data b.data

/-- Go's `s1 <= s2` on strings. -/
def strLe (a b : String) : Bool :=
  ! strLt b a

/-- Insert a string into a sorted list, moving it left past every strictly
greater element: one step of the adjacent-swap insertion sort of
src/router.go, allowed (lines 364-368). -/
def insertGo (x : String) : List String → List String
  | [] => [x]
  | y :: ys => if strLt x y then x :: y :: ys else y :: insertGo x ys

/-- The insertion sort of src/router.go, allowed: element i is inserted
into the already-sorted first i elements, for i = 1, 2, .... -/
def sortGo (l : List String) : List String :=
  l.foldl (fun acc x => insertGo x acc) []

/-- The tail of src/router.go, allowed (lines 357-373): when the collected
list is non-empty, append OPTIONS, sort, and join with ", ";
otherwise return the empty string. -/
def finishAllow (collected : List String) : String :=
  if collected.length > 0 then joinCommaSpace (sortGo (collected ++ ["OPTIONS"]))
  else ""

/-- src/router.go, Router.allowed. For the server-wide path `*` with an
empty request method (the internal cache-refresh call) every registered
method except OPTIONS is collected; for `*` with a non-empty method the
cached `globalAllowed` string is returned directly. For a specific path
every other method's trie is probed with an exact lookup, skipping the
request method and OPTIONS. -/
def Router.allowed (r : Router) (path reqMethod : String) : String :=
  if path = "*" then
    if reqMethod = "" then
      finishAllow ((r.trees.map Prod.fst).filter (fun m => m ≠ "OPTIONS"))
    else r.globalAllowed
  else
    finishAllow (r.trees.filterMap (fun t =>
      if t.1 = reqMethod ∨ t.1 = "OPTIONS" then none
      else if (t.2.getValue path).1.isSome then some t.1 else none))

/-- How a 404 or 405 is answered: by the caller's custom handler, or by the
default plain-text response (http.Error / http.NotFound write the body and
a trailing newline). -/
inductive Reply where
  | custom
  | plainText (status : Nat) (body : String)
deriving DecidableEq, Repr

/-- The observable outcome of dispatching one request through
Router.ServeHTTP. -/
inductive Outcome where
  | invoke (route : Route) (params : Option Params) (routeSaved : Bool)
  | redirect (location : String) (status : Nat)
  | autoOPTIONS (allow : String) (globalHandlerCalled : Bool)
  | methodNotAllowed (allow : String) (reply : Reply)
  | notFound (reply : Reply)
deriving DecidableEq, Repr

/-- src/router.go, ServeHTTP lines 450-455: the 404 tail. -/
def Router.notFoundOutcome (r : Router) : Outcome :=
  if r.notFound then .notFound .custom
  else .notFound (.plainText 404 "404 page not found\n")

/-- src/router.go, ServeHTTP lines 426-455: the fallback reached when no
handler was invoked and no redirect was issued — automatic OPTIONS reply,
405, or 404. -/
def Router.fallback (r : Router) (method path : String) : Outcome :=
  if method = "OPTIONS" ∧ r.handleOPTIONS then
    let allow := r.allowed path "OPTIONS"
    if allow ≠ "" then .autoOPTIONS allow r.globalOPTIONS
    else r.notFoundOutcome
  else if r.handleMethodNotAllowed then
    let allow := r.allowed path method
    if allow ≠ "" then
      .methodNotAllowed allow
        (if r.methodNotAllowed then .custom else .plainText 405 "Method Not Allowed\n")
    else r.notFoundOutcome
  else r.notFoundOutcome

/-- src/router.go, ServeHTTP: look the method's trie up and match the path;
on a match invoke the handler with the bound parameters; on a miss, when
the method is not CONNECT and the path is not "/", try the trailing-slash
redirect (status 301 for GET, 308 otherwise), then the fixed-path redirect
over the cleaned path; otherwise fall back to OPTIONS/405/404 handling. -/
def Router.serveHTTP (r : Router) (method path : String) : Outcome :=
  match findTree r.trees method with
  | some root =>
      match root.getValue path with
      | (some route, ps, _) => .invoke route ps r.saveMatchedRoute
      | (none, _, tsr) =>
          if method ≠ "CONNECT" ∧ path ≠ "/" then
            let code := if method = "GET" then 301 else 308
            if tsr ∧ r.redirectTrailingSlash then
              .redirect (toggleSlash path) code
            else if r.redirectFixedPath then
              let fixed := root.findCaseInsensitivePath (CleanPath path) r.redirectTrailingSlash
              if fixed.2 then .redirect fixed.1 code
              else r.fallback method path
            else r.fallback method path
          else r.fallback method path
  | none => r.fallback method path

/-- src/router.go, Router.Lookup: manual lookup of a method and path. With
no trie for the method the result is (nil, nil, false); otherwise the
trie's answer, with nil parameters passed through as nil. -/
def Router.lookup (r : Router) (method path : String) : Option Route × Option Params × Bool :=
  match findTree r.trees method with
  | some root =>
      match root.getValue path with
      | (none, _, tsr) => (none, none, tsr)
      | (some route, none, tsr) => (some route, none, tsr)
      | (some route, some ps, tsr) => (some route, some ps, tsr)
  | none => (none, none, false)

/-- The result of a registration call: the updated router, or a panic with
the Go panic message. -/
inductive HandleResult where
  | ok (r : Router)
  | panics (msg : String)
deriving DecidableEq, Repr

/-- Whether a registration call panicked. -/
def HandleResult.isPanics : HandleResult → Bool
  | .ok _ => false
  | .panics _ => true

/-- Modelled from the spec: newRoute (route.go, not part of src/) builds
the Route record; the only option the dispatcher observes is the optional
route name. -/
def newRoute (path : String) (handler : Nat) (nameOpt : Option String) : Route :=
  { pattern := path, handler := handler, name := nameOpt.getD "" }

/-- src/router.go, Router.Handle lines 250-256: on the first registration
for a method, create its (empty) trie and recompute the cached server-wide
allowed-methods string at that moment. -/
def Router.ensureTree (r : Router) (method : String) : Router :=
  match findTree r.trees method with
  | some _ => r
  | none =>
      let r' := { r with trees := r.trees ++ [(method, Node.mk [])] }
      { r' with globalAllowed := r'.allowed "*" "" }

/-- src/router.go, Router.Handle lines 258-281: panic when a non-empty
route name is already registered, otherwise record the named route, attach
the route to the method's trie, and update maxParams. -/
def Router.registerRoute (r : Router) (method path : String) (route : Route) :
    HandleResult :=
  if route.name ≠ "" ∧ (findRoute r.routes route.name).isSome then
    .panics ("route name " ++ route.name ++ " is already registered")
  else
    let r2 := if route.name ≠ "" then
        { r with routes := r.routes ++ [(route.name, route)] }
      else r
    let root := (findTree r2.trees method).getD (Node.mk [])
    let r3 := { r2 with trees := updateTree r2.trees method (root.addRoute route) }
    if countParams path > r3.maxParams then
      .ok { r3 with maxParams := countParams path }
    else .ok r3

/-- src/router.go, Router.Handle: panics on an empty method or a pattern
that does not begin with '/'; creates the method's trie on first use
(recomputing the cached server-wide allowed-methods string); panics when a
non-empty route name is already registered; registers the route and
updates maxParams. -/
def Router.handle (r : Router) (method path : String) (handler : Nat)
    (nameOpt : Option String) : HandleResult :=
  if method = "" then .panics "method must not be empty"
  else if path.data.head? ≠ some '/' then
    .panics ("path must begin with '/' in path '" ++ path ++ "'")
  else
    (r.ensureTree method).registerRoute method path (newRoute path handler nameOpt)

/-- src/router.go, Router.HandleFunc: panics on a nil handler function,
otherwise delegates to Handle. -/
def Router.handleFunc (r : Router) (method path : String) (handler : Option Nat)
    (nameOpt : Option String) : HandleResult :=
  match handler with
  | none => .panics "handle must not be nil"
  | some h => r.handle method path h nameOpt

/-- One registration call, for reasoning about sequences of Handle calls. -/
structure Reg where
  method : String
  path : String
  handler : Nat
  name : Option String := none
deriving DecidableEq, Repr

/-- A sequence of Handle calls, stopping at the first panic. -/
def handleSeq : Router → List Reg → HandleResult
  | r, [] => .ok r
  | r, reg :: rest =>
      match r.handle reg.method reg.path reg.handler reg.name with
      | .ok r' => handleSeq r' rest
      | .panics m => .panics m

/-- A Go slice of Params as the pool stores it: a backing array and a
length; the observable contents are the first `len` entries. -/
structure ParamsBuf where
  backing : List Param
  len : Nat
deriving DecidableEq, Repr

/-- The contents of the slice that its user can see. -/
def ParamsBuf.visible (b : ParamsBuf) : Params :=
  b.backing.take b.len

/-- src/router.go, Router.getParams: the buffer handed out by the pool is
resliced to `ps[0:0]` — length zero over the same backing array — before
it is returned to the caller. The pool's choice of buffer is the
argument. -/
def getParamsReset (b : ParamsBuf) : ParamsBuf :=
  { b with len := 0 }

/-- Extract the router from a successful registration (used to build
concrete routers for witnesses). -/
def okOr (res : HandleResult) (dflt : Router) : Router :=
  match res with
  | .ok r => r
  | .panics _ => dflt

/-- The specification's reading of the server-wide allowed-methods value,
over the list of registered methods: every method except OPTIONS, plus
OPTIONS when that set is non-empty, sorted ascending and joined with
", ". -/
def globalAllowedOf (methods : List String) : String :=
  let base := methods.filter (fun m => m ≠ "OPTIONS")
  if base.isEmpty then ""
  else joinCommaSpace (List.insertionSort (fun a b => strLe a b = true) (base ++ ["OPTIONS"]))

/-- The methods collected by Router.allowed for a specific path: every
registered method other than the request method and OPTIONS whose trie
reports a handler for the exact path. -/
def probeList (r : Router) (path reqMethod : String) : List String :=
  r.trees.filterMap (fun t =>
    if t.1 = reqMethod ∨ t.1 = "OPTIONS" then none
    else if (t.2.getValue path).1.isSome then some t.1 else none)

/-! Correctness of the adjacent-swap insertion sort of Router.allowed:
it produces the unique ascending ordering of its input. -/

theorem charListLt_asymm (a : List Char) :
    ∀ b, charListLt a b = true → charListLt b a = false := by
  induction a with
  | nil =>
      intro b h
      cases b with
      | nil => simp [charListLt] at h
      | cons y ys => simp [charListLt]
  | cons x xs ih =>
      intro b h
      cases b with
      | nil => simp [charListLt] at h
      | cons y ys =>
          simp only [charListLt] at h ⊢
          by_cases h1 : x < y
          · rw [if_neg (lt_asymm h1), if_pos h1]
          · rw [if_neg h1] at h
            by_cases h2 : y < x
            · rw [if_pos h2] at h
              exact absurd h (by simp)
            · rw [if_neg h2] at h
              rw [if_neg h2, if_neg h1]
              exact ih ys h

theorem charListLt_trans (a : List Char) :
    ∀ b c, charListLt a b = true → charListLt b c = true → charListLt a c = true := by
  induction a with
  | nil =>
      intro b c hab hbc
      cases b with
      | nil => simp [charListLt] at hab
      | cons y ys =>
          cases c with
          | nil => simp [charListLt] at hbc
          | cons z zs => simp [charListLt]
  | cons x xs ih =>
      intro b c hab hbc
      cases b with
      | nil => simp [charListLt] at hab
      | cons y ys =>
          cases c with
          | nil => simp [charListLt] at hbc
          | cons z zs =>
              simp only [charListLt] at hab hbc ⊢
              by_cases h1 : x < y
              · by_cases h2 : y < z
                · rw [if_pos (lt_trans h1 h2)]
                · by_cases h3 : z < y
                  · rw [if_neg h2, if_pos h3] at hbc
                    exact absurd hbc (by simp)
                  · have hyz : y = z := le_antisymm (not_lt.mp h3) (not_lt.mp h2)
                    subst hyz
                    rw [if_pos h1]
              · by_cases h4 : y < x
                · rw [if_neg h1, if_pos h4] at hab
                  exact absurd hab (by simp)
                · have hxy : x = y := le_antisymm (not_lt.mp h4) (not_lt.mp h1)
                  subst hxy
                  rw [if_neg h1, if_neg h4] at hab
                  by_cases h2 : x < z
                  · rw [if_pos h2]
                  · by_cases h3 : z < x
                    · rw [if_neg h2, if_pos h3] at hbc
                      exact absurd hbc (by simp)
                    · rw [if_neg h2, if_neg h3] at hbc ⊢
                      exact ih ys zs hab hbc

theorem charListLt_conn (a : List Char) :
    ∀ b, charListLt a b = false → charListLt b a = false → a = b := by
  induction a with
  | nil =>
      intro b h1 _
      cases b with
      | nil => rfl
      | cons y ys => simp [charListLt] at h1
  | cons x xs ih =>
      intro b h1 h2
      cases b with
      | nil => simp [charListLt] at h2
      | cons y ys =>
          simp only [charListLt] at h1 h2
          by_cases hxy : x < y
          · rw [if_pos hxy] at h1
            exact absurd h1 (by simp)
          · by_cases hyx : y < x
            · rw [if_pos hyx] at h2
              exact absurd h2 (by simp)
            · rw [if_neg hxy, if_neg hyx] at h1
              rw [if_neg hyx, if_neg hxy] at h2
              have heq : x = y := le_antisymm (not_lt.mp hyx) (not_lt.mp hxy)
              rw [heq, ih ys h1 h2]

theorem strLt_asymm {a b : String} (h : strLt a b = true) : strLt b a = false :=
  charListLt_asymm a.data b.data h

theorem strLt_le {a b : String} (h : strLt a b = true) : strLe a b = true := by
  simp only [strLe, Bool.not_eq_true']
  exact strLt_asymm h

theorem not_strLt_le {a b : String} (h : strLt a b = false) : strLe b a = true := by
  simp only [strLe, Bool.not_eq_true']
  exact h

theorem strLe_total (a b : String) : strLe a b = true ∨ strLe b a = true := by
  cases h : strLt b a
  · exact Or.inl (not_strLt_le h)
  · exact Or.inr (strLt_le h)

theorem strLe_trans {a b c : String} (h1 : strLe a b = true) (h2 : strLe b c = true) :
    strLe a c = true := by
  simp only [strLe, Bool.not_eq_true'] at h1 h2 ⊢
  cases h3 : strLt c a
  · rfl
  · exfalso
    cases h4 : strLt b c with
    | true =>
        have := charListLt_trans b.data c.data a.data h4 h3
        rw [show charListLt b.data a.data = strLt b a from rfl, h1] at this
        exact absurd this (by simp)
    | false =>
        have hbc : b.data = c.data := charListLt_conn b.data c.data h4 h2
        have : strLt b a = true := by
          show charListLt b.data a.data = true
          rw [hbc]
          exact h3
        rw [h1] at this
        exact absurd this (by simp)

theorem strLe_antisymm {a b : String} (h1 : strLe a b = true) (h2 : strLe b a = true) :
    a = b := by
  simp only [strLe, Bool.not_eq_true'] at h1 h2
  cases a with
  | mk da =>
      cases b with
      | mk db => exact congrArg String.mk (charListLt_conn da db h2 h1)

instance strLeIsTotal : IsTotal String (fun a b => strLe a b = true) :=
  ⟨strLe_total⟩

instance strLeIsTrans : IsTrans String (fun a b => strLe a b = true) :=
  ⟨fun _ _ _ h1 h2 => strLe_trans h1 h2⟩

instance strLeIsAntisymm : IsAntisymm String (fun a b => strLe a b = true) :=
  ⟨fun _ _ h1 h2 => strLe_antisymm h1 h2⟩

theorem insertGo_perm (x : String) (l : List String) : List.Perm (insertGo x l) (x :: l) := by
  induction l with
  | nil => simp [insertGo]
  | cons y ys ih =>
      cases h : strLt x y
      · simp only [insertGo, h, Bool.false_eq_true, if_false]
        exact (ih.cons y).trans (List.Perm.swap x y ys)
      · simp [insertGo, h]

theorem insertGo_sorted (x : String) {l : List String}
    (h : l.Sorted (fun a b => strLe a b = true)) :
    (insertGo x l).Sorted (fun a b => strLe a b = true) := by
  induction l with
  | nil => simp [insertGo]
  | cons y ys ih =>
      rw [List.sorted_cons] at h
      cases hxy : strLt x y
      · rw [insertGo, if_neg (by simp [hxy]), List.sorted_cons]
        refine ⟨?_, ih h.2⟩
        intro b hb
        rcases List.mem_cons.mp ((insertGo_perm x ys).mem_iff.mp hb) with rfl | hb
        · exact not_strLt_le hxy
        · exact h.1 b hb
      · rw [insertGo, if_pos hxy, List.sorted_cons]
        refine ⟨?_, List.sorted_cons.mpr h⟩
        intro b hb
        rcases List.mem_cons.mp hb with rfl | hb
        · exact strLt_le hxy
        · exact strLe_trans (strLt_le hxy) (h.1 b hb)

theorem sortGo_perm_aux (l acc : List String) :
    List.Perm (l.foldl (fun a x => insertGo x a) acc) (acc ++ l) := by
  induction l generalizing acc with
  | nil => simp
  | cons x xs ih =>
      have h1 : (x :: xs).foldl (fun a x => insertGo x a) acc
          = xs.foldl (fun a x => insertGo x a) (insertGo x acc) := rfl
      rw [h1]
      refine ((ih _).trans ?_)
      refine ((insertGo_perm x acc).append_right xs).trans ?_
      exact List.perm_middle.symm

theorem sortGo_sorted_aux (l : List String) {acc : List String}
    (h : acc.Sorted (fun a b => strLe a b = true)) :
    (l.foldl (fun a x => insertGo x a) acc).Sorted (fun a b => strLe a b = true) := by
  induction l generalizing acc with
  | nil => exact h
  | cons x xs ih => exact ih (insertGo_sorted x h)

theorem sortGo_eq_insertionSort (l : List String) :
    sortGo l = List.insertionSort (fun a b => strLe a b = true) l := by
  refine List.eq_of_perm_of_sorted (r := fun a b : String => strLe a b = true) ?_ ?_ ?_
  · exact (sortGo_perm_aux l []).trans (List.perm_insertionSort _ l).symm
  · exact sortGo_sorted_aux l (by simp)
  · exact List.sorted_insertionSort _ l

/-! Helper lemmas about the dispatcher's bookkeeping. -/

theorem updateTree_map_fst (ts : List (String × Node)) (m : String) (n : Node) :
    (updateTree ts m n).map Prod.fst = ts.map Prod.fst := by
  induction ts with
  | nil => rfl
  | cons t rest ih =>
      by_cases h : t.1 = m
      · simp [updateTree, h]
      · simp [updateTree, h, ih]

theorem allowed_star_refresh (r : Router) :
    r.allowed "*" "" = globalAllowedOf (r.trees.map Prod.fst) := by
  simp only [Router.allowed, if_pos rfl, finishAllow, globalAllowedOf,
    sortGo_eq_insertionSort]
  cases h : (r.trees.map Prod.fst).filter (fun m => m ≠ "OPTIONS") with
  | nil => simp
  | cons a l => simp

theorem allowed_star_cached (r : Router) (m : String) (h : m ≠ "") :
    r.allowed "*" m = r.globalAllowed := by
  simp [Router.allowed, h]

theorem matchSegs_nowild {ps qs : List String} {caps : List Param}
    (hw : ∀ s ∈ ps, isWildSeg s = false)
    (h : matchSegs ps qs = some caps) : caps = [] := by
  induction ps generalizing qs caps with
  | nil =>
      cases qs with
      | nil => simpa [matchSegs] using h.symm
      | cons q qs' => simp [matchSegs] at h
  | cons p ps' ih =>
      have hp : isWildSeg p = false := hw p (List.mem_cons_self p ps')
      simp only [matchSegs, hp] at h
      cases qs with
      | nil => simp at h
      | cons q qs' =>
          have h' : (if p = q then matchSegs ps' qs' else none) = some caps := h
          by_cases hpq : p = q
          · rw [if_pos hpq] at h'
            exact ih (fun s hs => hw s (List.mem_cons_of_mem p hs)) h'
          · rw [if_neg hpq] at h'
            simp at h'

theorem findMatch_sound {routes : List Route} {path : String} {rt : Route}
    {caps : List Param} (h : findMatch routes path = some (rt, caps)) :
    matchSegs (segsOf rt.pattern) (segsOf path) = some caps ∧ rt ∈ routes := by
  induction routes with
  | nil => simp [findMatch] at h
  | cons r0 rest ih =>
      simp only [findMatch] at h
      cases hm : matchSegs (segsOf r0.pattern) (segsOf path) with
      | some c =>
          rw [hm] at h
          obtain ⟨h1, h2⟩ := Prod.mk.injEq .. ▸ Option.some.injEq .. ▸ h
          exact ⟨by rw [← h1, hm, h2], by rw [← h1]; exact List.mem_cons_self r0 rest⟩
      | none =>
          rw [hm] at h
          obtain ⟨h1, h2⟩ := ih h
          exact ⟨h1, List.mem_cons_of_mem r0 h2⟩

theorem ensureTree_globalAllowed {r : Router} (method : String)
    (hInv : r.globalAllowed = globalAllowedOf (r.trees.map Prod.fst)) :
    (r.ensureTree method).globalAllowed
      = globalAllowedOf ((r.ensureTree method).trees.map Prod.fst) := by
  unfold Router.ensureTree
  cases hft : findTree r.trees method with
  | some n => exact hInv
  | none => exact allowed_star_refresh _

theorem registerRoute_ok_fields {r r' : Router} {method path : String} {route : Route}
    (h : r.registerRoute method path route = .ok r') :
    r'.globalAllowed = r.globalAllowed ∧
      r'.trees.map Prod.fst = r.trees.map Prod.fst := by
  simp only [Router.registerRoute] at h
  split at h
  · exact absurd h (by simp)
  split at h <;> split at h <;>
  · injection h with h
    subst h
    simp [updateTree_map_fst]

theorem handle_ok_globalAllowed {r r' : Router} {method path : String} {handler : Nat}
    {nameOpt : Option String}
    (hInv : r.globalAllowed = globalAllowedOf (r.trees.map Prod.fst))
    (h : r.handle method path handler nameOpt = .ok r') :
    r'.globalAllowed = globalAllowedOf (r'.trees.map Prod.fst) := by
  simp only [Router.handle] at h
  split at h
  · exact absurd h (by simp)
  split at h
  · exact absurd h (by simp)
  obtain ⟨h1, h2⟩ := registerRoute_ok_fields h
  rw [h1, h2]
  exact ensureTree_globalAllowed method hInv

theorem handleSeq_ok_globalAllowed (ops : List Reg) {r0 r : Router}
    (hInv : r0.globalAllowed = globalAllowedOf (r0.trees.map Prod.fst))
    (h : handleSeq r0 ops = .ok r) :
    r.globalAllowed = globalAllowedOf (r.trees.map Prod.fst) := by
  induction ops generalizing r0 with
  | nil =>
      simp only [handleSeq] at h
      injection h with h
      subst h
      exact hInv
  | cons reg rest ih =>
      simp only [handleSeq] at h
      cases hh : r0.handle reg.method reg.path reg.handler reg.name with
      | ok r1 =>
          rw [hh] at h
          exact ih (handle_ok_globalAllowed hInv hh) h
      | panics m =>
          rw [hh] at h
          simp at h

/-- Whether an outcome is a redirect. -/
def Outcome.isRedirect : Outcome → Bool
  | .redirect _ _ => true
  | _ => false

/-- The fallback tail of ServeHTTP never issues a redirect. -/
theorem fallback_not_redirect (r : Router) (method path : String) :
    (r.fallback method path).isRedirect = false := by
  unfold Router.fallback Router.notFoundOutcome
  dsimp only
  repeat' split
  all_goals rfl

/-- See `fallback_not_redirect`. -/
theorem fallback_ne_redirect (r : Router) (method path loc : String) (code : Nat) :
    r.fallback method path ≠ .redirect loc code := by
  intro h
  have hnr := fallback_not_redirect r method path
  rw [h] at hnr
  exact absurd hnr (by simp [Outcome.isRedirect])

/-! Concrete routers used by the witnesses. -/

/-- A router with a single static GET route /foo (auto-correction on, as
NewRouter configures it). -/
def tsrNode : Node := Node.mk [⟨"/foo", 1, ""⟩]

/-- See `tsrNode`. -/
def tsrRouter : Router := { NewRouter with trees := [("GET", tsrNode)] }

/-- A router whose only route /foo is registered under the CONNECT
method. -/
def connectRouter : Router := { NewRouter with trees := [("CONNECT", tsrNode)] }

/-- A router built by registering GET /pets and POST /pets through
Handle. -/
def sampleGP : Router :=
  okOr (handleSeq NewRouter [⟨"GET", "/pets", 1, none⟩, ⟨"POST", "/pets", 2, none⟩])
    NewRouter

/-- A router holding the named route "x" (registered through Handle). -/
def namedBase : Router :=
  okOr (Router.handle NewRouter "GET" "/a" 1 (some "x")) NewRouter

/-- C1: when the method's trie lookup returns no handler but the
trailing-slash-redirect hint is true, trailing-slash redirection is
enabled, the method is not CONNECT and the path is not "/", ServeHTTP
responds with a redirect to the slash-toggled path: the trailing '/' is
removed when the path is longer than one character and ends in '/',
otherwise a '/' is appended. -/
theorem serveHTTP_tsr_redirect (r : Router) (method path : String) (root : Node)
    (ps : Option Params)
    (hroot : findTree r.trees method = some root)
    (hval : root.getValue path = (none, ps, true))
    (hrts : r.redirectTrailingSlash = true)
    (hm : method ≠ "CONNECT") (hp : path ≠ "/") :
    r.serveHTTP method path =
      .redirect
        (if 1 < path.data.length ∧ path.data.getLast? = some '/'
         then String.mk path.data.dropLast else path ++ "/")
        (if method = "GET" then 301 else 308) := by
  simp [Router.serveHTTP, hroot, hval, hrts, hm, hp, toggleSlash]

/-- C1 witness: GET /foo registered, request /foo/ redirects to /foo with
status 301. -/
theorem serveHTTP_tsr_redirect_witness :
    Router.serveHTTP tsrRouter "GET" "/foo/" = .redirect "/foo" 301 := by
  have h := serveHTTP_tsr_redirect tsrRouter "GET" "/foo/" tsrNode none
    (by decide) (by decide) (by decide) (by decide) (by decide)
  exact h.trans (by decide)

/-- C2: every redirect outcome of ServeHTTP carries status 301 when the
request method is GET and status 308 for every other method. -/
theorem serveHTTP_redirect_status (r : Router) (method path loc : String) (code : Nat)
    (h : r.serveHTTP method path = .redirect loc code) :
    code = if method = "GET" then 301 else 308 := by
  unfold Router.serveHTTP at h
  split at h
  · split at h
    · exact absurd h (by simp)
    · dsimp only at h
      split at h
      · split at h
        · injection h with h1 h2
          exact h2.symm
        · split at h
          · split at h
            · injection h with h1 h2
              exact h2.symm
            · exact absurd h (fallback_ne_redirect _ _ _ _ _)
          · exact absurd h (fallback_ne_redirect _ _ _ _ _)
      · exact absurd h (fallback_ne_redirect _ _ _ _ _)
  · exact absurd h (fallback_ne_redirect _ _ _ _ _)

/-- A router with the single static POST route /foo. -/
def postRouter : Router := { NewRouter with trees := [("POST", tsrNode)] }

/-- C3: for a specific path (not "*"), allowed collects every registered
method other than the request method and OPTIONS whose trie reports a
handler for the exact path; when the collection is non-empty the result is
that collection plus OPTIONS, sorted ascending and joined with ", ", and
otherwise it is the empty string. -/
theorem allowed_specific_path (r : Router) (path reqMethod : String)
    (hstar : path ≠ "*") :
    r.allowed path reqMethod =
      (if (probeList r path reqMethod).isEmpty then ""
       else joinCommaSpace
         (List.insertionSort (fun a b => strLe a b = true)
           (probeList r path reqMethod ++ ["OPTIONS"]))) ∧
    ∀ m : String, m ∈ probeList r path reqMethod ↔
      ∃ node, (m, node) ∈ r.trees ∧ m ≠ reqMethod ∧ m ≠ "OPTIONS" ∧
        (node.getValue path).1.isSome = true := by
  constructor
  · have h1 : r.allowed path reqMethod = finishAllow (probeList r path reqMethod) := by
      unfold Router.allowed probeList
      rw [if_neg hstar]
    rw [h1]
    simp only [finishAllow, sortGo_eq_insertionSort]
    cases probeList r path reqMethod with
    | nil => simp
    | cons a l => simp
  · intro m
    simp only [probeList, List.mem_filterMap]
    constructor
    · rintro ⟨⟨m', node⟩, hmem, hf⟩
      dsimp only at hf
      by_cases hc : m' = reqMethod ∨ m' = "OPTIONS"
      · rw [if_pos hc] at hf
        exact absurd hf (by simp)
      · rw [if_neg hc] at hf
        by_cases hg : (node.getValue path).1.isSome = true
        · rw [if_pos hg] at hf
          injection hf with hf
          subst hf
          push_neg at hc
          exact ⟨node, hmem, hc.1, hc.2, hg⟩
        · rw [if_neg hg] at hf
          exact absurd hf (by simp)
    · rintro ⟨node, hmem, h1, h2, h3⟩
      refine ⟨(m, node), hmem, ?_⟩
      dsimp only
      rw [if_neg (not_or.mpr ⟨h1, h2⟩), if_pos h3]

/-- C3 witness: with GET /pets and POST /pets registered, a DELETE request
for /pets is answered with Allow = "GET, OPTIONS, POST". -/
theorem allowed_specific_path_witness :
    Router.allowed sampleGP "/pets" "DELETE" = "GET, OPTIONS, POST" := by
  have h := allowed_specific_path sampleGP "/pets" "DELETE" (by decide)
  rw [h.1]
  decide

/-- C4: after every successful sequence of Handle registrations starting
from NewRouter, the cached server-wide allowed-methods string equals a
fresh computation over the current method set — every registered method
except OPTIONS, plus OPTIONS when that set is non-empty, sorted ascending
and joined with ", " — and allowed("*", m) for a non-empty method m
returns the cached value directly. -/
theorem handle_globalAllowed_cache (ops : List Reg) (r : Router)
    (h : handleSeq NewRouter ops = .ok r) :
    r.globalAllowed = globalAllowedOf (r.trees.map Prod.fst) ∧
    ∀ m : String, m ≠ "" → r.allowed "*" m = r.globalAllowed := by
  refine ⟨handleSeq_ok_globalAllowed ops ?_ h, fun m hm => allowed_star_cached r m hm⟩
  rfl

/-- C4 witness: the invariant instantiated at the two-registration router
sampleGP. -/
theorem handle_globalAllowed_cache_witness :
    sampleGP.globalAllowed = globalAllowedOf (sampleGP.trees.map Prod.fst) ∧
    ∀ m : String, m ≠ "" → sampleGP.allowed "*" m = sampleGP.globalAllowed :=
  handle_globalAllowed_cache
    [⟨"GET", "/pets", 1, none⟩, ⟨"POST", "/pets", 2, none⟩] sampleGP rfl

/-- C2 witness: the trailing-slash redirect for a POST request to /foo/
carries status 308. -/
theorem serveHTTP_redirect_status_witness :
    Router.serveHTTP postRouter "POST" "/foo/" = .redirect "/foo" 308 ∧
      (308 : Nat) = (if ("POST" : String) = "GET" then 301 else 308) :=
  ⟨by decide, serveHTTP_redirect_status postRouter "POST" "/foo/" "/foo" 308 (by decide)⟩

/-- C5 counterexample: a CONNECT request whose lookup fails, where no
trailing-slash redirect applies, fixed-path redirection is enabled and the
case-insensitive corrector succeeds on the cleaned path — yet ServeHTTP
does not redirect (it answers 404), because the whole redirect block is
guarded by method ≠ CONNECT. -/
theorem serveHTTP_fixed_redirect_counterexample :
    findTree connectRouter.trees "CONNECT" = some tsrNode ∧
    (tsrNode.getValue "/Foo").1 = none ∧
    ¬((tsrNode.getValue "/Foo").2.2 = true ∧ connectRouter.redirectTrailingSlash = true) ∧
    connectRouter.redirectFixedPath = true ∧
    tsrNode.findCaseInsensitivePath (CleanPath "/Foo") connectRouter.redirectTrailingSlash
      = ("/foo", true) ∧
    connectRouter.serveHTTP "CONNECT" "/Foo"
      = .notFound (.plainText 404 "404 page not found\n") := by
  decide

/-- C5 (amended): when additionally the method is not CONNECT and the path
is not "/", a failed lookup with no trailing-slash redirect taken and
fixed-path redirection enabled runs the case-insensitive corrector on the
normalized path and redirects to the corrected path on success (301 for
GET, 308 otherwise). -/
theorem serveHTTP_fixed_redirect (r : Router) (method path fixed : String) (root : Node)
    (ps : Option Params) (tsr : Bool)
    (hroot : findTree r.trees method = some root)
    (hval : root.getValue path = (none, ps, tsr))
    (hnotsr : ¬(tsr = true ∧ r.redirectTrailingSlash = true))
    (hfp : r.redirectFixedPath = true)
    (hm : method ≠ "CONNECT") (hp : path ≠ "/")
    (hfix : root.findCaseInsensitivePath (CleanPath path) r.redirectTrailingSlash
      = (fixed, true)) :
    r.serveHTTP method path = .redirect fixed (if method = "GET" then 301 else 308) := by
  simp only [Router.serveHTTP, hroot, hval]
  rw [if_pos ⟨hm, hp⟩, if_neg hnotsr, if_pos hfp, hfix]
  rfl

/-- C5 witness: GET /foo registered; the request /FOO is redirected to the
corrected path /foo with status 301. -/
theorem serveHTTP_fixed_redirect_witness :
    Router.serveHTTP tsrRouter "GET" "/FOO" = .redirect "/foo" 301 := by
  have h := serveHTTP_fixed_redirect tsrRouter "GET" "/FOO" "/foo" tsrNode none false
    (by decide) (by decide) (by decide) (by decide) (by decide) (by decide) (by decide)
  exact h.trans (by decide)

/-- C6: on an unrouted request that neither redirected nor got the
automatic OPTIONS reply, ServeHTTP answers 405 with the Allow header set
(custom handler if configured, else the plain-text status phrase) exactly
when method-not-allowed handling is on and the Allow set excluding the
current method is non-empty; otherwise it answers 404 (custom handler if
configured, else the default response). -/
theorem serveHTTP_fallback_policy (r : Router) (method path : String)
    (hfb : r.serveHTTP method path = r.fallback method path)
    (hnopt : ¬(method = "OPTIONS" ∧ r.handleOPTIONS = true ∧
      r.allowed path "OPTIONS" ≠ "")) :
    (r.handleMethodNotAllowed = true → r.allowed path method ≠ "" →
      r.serveHTTP method path =
        .methodNotAllowed (r.allowed path method)
          (if r.methodNotAllowed then .custom else .plainText 405 "Method Not Allowed\n")) ∧
    ((r.handleMethodNotAllowed = false ∨ r.allowed path method = "") →
      r.serveHTTP method path =
        .notFound (if r.notFound then .custom else .plainText 404 "404 page not found\n")) := by
  rw [hfb]
  by_cases hopt : method = "OPTIONS" ∧ r.handleOPTIONS = true
  · have hall : r.allowed path "OPTIONS" = "" := by
      by_contra hne
      exact hnopt ⟨hopt.1, hopt.2, hne⟩
    have hallm : r.allowed path method = "" := by
      rw [hopt.1]
      exact hall
    constructor
    · intro _ hne
      exact absurd hallm hne
    · intro _
      unfold Router.fallback Router.notFoundOutcome
      rw [if_pos hopt]
      dsimp only
      rw [if_neg (by simp [hall])]
      split <;> rfl
  · constructor
    · intro hmna hne
      unfold Router.fallback
      rw [if_neg hopt, if_pos hmna]
      dsimp only
      rw [if_pos hne]
    · intro hcase
      unfold Router.fallback Router.notFoundOutcome
      rw [if_neg hopt]
      cases hmna : r.handleMethodNotAllowed with
      | false =>
          rw [if_neg (by simp)]
          split <;> rfl
      | true =>
          have hall : r.allowed path method = "" := by
            rcases hcase with h | h
            · rw [hmna] at h
              exact absurd h (by simp)
            · exact h
          rw [if_pos rfl]
          dsimp only
          rw [if_neg (by simp [hall])]
          split <;> rfl

/-- C6 witness: the policy instantiated at sampleGP for a DELETE request to
/pets (no DELETE trie exists, so the request is unrouted and unredirected). -/
theorem serveHTTP_fallback_policy_witness :
    (sampleGP.handleMethodNotAllowed = true → sampleGP.allowed "/pets" "DELETE" ≠ "" →
      sampleGP.serveHTTP "DELETE" "/pets" =
        .methodNotAllowed (sampleGP.allowed "/pets" "DELETE")
          (if sampleGP.methodNotAllowed then .custom
           else .plainText 405 "Method Not Allowed\n")) ∧
    ((sampleGP.handleMethodNotAllowed = false ∨ sampleGP.allowed "/pets" "DELETE" = "") →
      sampleGP.serveHTTP "DELETE" "/pets" =
        .notFound (if sampleGP.notFound then .custom
           else .plainText 404 "404 page not found\n")) :=
  serveHTTP_fallback_policy sampleGP "DELETE" "/pets" (by decide) (by decide)

/-- Creating a method's trie does not touch the named-route table. -/
theorem ensureTree_routes (r : Router) (method : String) :
    (r.ensureTree method).routes = r.routes := by
  unfold Router.ensureTree
  cases findTree r.trees method <;> rfl

/-- C7 counterexample: with the route name "x" already registered, Handle
called with a non-empty method, a '/'-pattern and a (non-nil) handler still
panics at the dispatcher layer, so valid method/pattern/handler inputs are
not sufficient for registration to proceed. -/
theorem handle_name_conflict_counterexample :
    ("GET" : String) ≠ "" ∧ ("/b" : String).data.head? = some '/' ∧
    namedBase.handle "GET" "/b" 2 (some "x")
      = .panics "route name x is already registered" := by
  decide

/-- registerRoute panics exactly on a duplicate non-empty route name. -/
theorem registerRoute_isPanics (r : Router) (method path : String) (route : Route) :
    (r.registerRoute method path route).isPanics = true ↔
      (route.name ≠ "" ∧ (findRoute r.routes route.name).isSome = true) := by
  unfold Router.registerRoute
  by_cases h : route.name ≠ "" ∧ (findRoute r.routes route.name).isSome = true
  · rw [if_pos h]
    simp [HandleResult.isPanics, h]
  · rw [if_neg h]
    dsimp only
    constructor
    · intro hfalse
      split at hfalse <;>
        split at hfalse <;>
          exact absurd hfalse (by simp [HandleResult.isPanics])
    · intro hcase
      exact absurd hcase h

/-- C7 (amended): at the dispatcher layer, Handle panics exactly when the
method is empty, the pattern does not begin with '/', or a non-empty route
name is already registered; HandleFunc panics on a nil handler and
otherwise behaves as Handle. -/
theorem handle_panic_conditions (r : Router) (method path : String)
    (nameOpt : Option String) :
    (∀ hd : Nat, (r.handle method path hd nameOpt).isPanics = true ↔
      (method = "" ∨ path.data.head? ≠ some '/' ∨
        (nameOpt.getD "" ≠ "" ∧
          (findRoute r.routes (nameOpt.getD "")).isSome = true))) ∧
    (r.handleFunc method path none nameOpt).isPanics = true ∧
    ∀ hd : Nat, r.handleFunc method path (some hd) nameOpt
      = r.handle method path hd nameOpt := by
  refine ⟨fun hd => ?_, rfl, fun hd => rfl⟩
  unfold Router.handle
  by_cases h1 : method = ""
  · rw [if_pos h1]
    simp [HandleResult.isPanics, h1]
  · rw [if_neg h1]
    by_cases h2 : path.data.head? ≠ some '/'
    · rw [if_pos h2]
      simp [HandleResult.isPanics, h1, h2]
    · rw [if_neg h2]
      have hname : (newRoute path hd nameOpt).name = nameOpt.getD "" := rfl
      rw [registerRoute_isPanics, ensureTree_routes, hname]
      constructor
      · intro hc
        exact Or.inr (Or.inr hc)
      · rintro (h | h | h)
        · exact absurd h h1
        · exact absurd h h2
        · exact h

/-- C8: a parameter buffer handed out by the pool is resliced to length
zero, so none of its previous contents are visible, and the backing array
is reused rather than reallocated. -/
theorem getParams_reset_visible (b : ParamsBuf) :
    (getParamsReset b).visible = [] ∧ (getParamsReset b).backing = b.backing :=
  ⟨rfl, rfl⟩

/-- C10: Lookup on a method with no registered trie yields (nil, nil,
false); and a successful lookup of a route without wildcard segments
yields nil parameters (never a non-nil empty sequence). -/
theorem lookup_no_trie_and_static_params (r : Router) (method path : String) :
    (findTree r.trees method = none → r.lookup method path = (none, none, false)) ∧
    (∀ root route ps tsr, findTree r.trees method = some root →
      root.getValue path = (some route, ps, tsr) →
      (∀ s ∈ segsOf route.pattern, isWildSeg s = false) →
      ps = none ∧ r.lookup method path = (some route, none, tsr)) := by
  constructor
  · intro h
    simp [Router.lookup, h]
  · intro root route ps tsr hroot hval hw
    have hps : ps = none := by
      unfold Node.getValue at hval
      cases hm : findMatch root.routes path with
      | none =>
          rw [hm] at hval
          exact absurd hval (by simp)
      | some p =>
          obtain ⟨rt, caps⟩ := p
          rw [hm] at hval
          simp only [Prod.mk.injEq, Option.some.injEq] at hval
          obtain ⟨h1, h2, h3⟩ := hval
          have hcaps := (findMatch_sound hm).1
          have hnil : caps = [] := by
            refine matchSegs_nowild ?_ hcaps
            rw [h1]
            exact hw
          rw [← h2, hnil]
          simp
    subst hps
    refine ⟨rfl, ?_⟩
    simp [Router.lookup, hroot, hval]

end Clevergo
